import Mathlib

/-!
# Verification of the CHATBOT-RAG-LLM chunking and retrieval pipeline

Shallow embedding, in Lean 4, of the pure computational core of the
repository's backend:

* `backend/app/services/chunking_service.py` — the `ChunkingService` class
  (`chunk_document` dispatch, code / config / markdown / paragraph / SQL /
  web / generic strategies and the `_chunk_by_lines` terminal fallback);
* `backend/app/services/rag_pipeline.py` — `_process_csv_content`,
  `_process_large_csv_content` and the chunk-source selection made by
  `add_document`;
* `backend/app/services/embedding_service.py` — `_simple_hash_embedding`;
* `backend/app/routers/chat.py` — `should_use_rag`.

Python strings are modeled as `String` (a wrapper around `List Char`); all
string primitives used by the code (`split`, `strip`, `lower`, `in`,
`str.split()` word counting, the concrete regular expressions appearing in
the source) are defined here from scratch over `List Char`, following the
semantics of the CPython functions they stand in for, so that everything
evaluates inside the kernel.  Python dictionaries reaching the chunker are
modeled by the `Metadata` structure (only the keys the embedded code reads:
`file_type`, `filename`, `file_name`, `file_size`); the per-chunk metadata
written by `metadata.copy()` + `update({...})` is modeled by optional
fields of the `Chunk` structure (a field is `none` exactly when the
corresponding key is not written by the producing strategy).  Python
floats in the hash embedder are modeled as exact rationals: the properties
proved about it (determinism and output length) do not depend on rounding.

The only genuinely fallible operation in the embedded code is the
`self.chunk_csv(...)` call in `chunk_document`: `ChunkingService` defines
no `chunk_csv` method, so that attribute access raises `AttributeError` at
runtime.  Fallible code is therefore modeled with `Except PyErr`; the
external tree-sitter dependency of `_chunk_with_ast` (which catches every
exception internally and yields `[]` on any failure) is modeled as an
arbitrary total function, universally quantified in the theorems.
-/

namespace RagChatbot

/-! ## Python string primitives over `List Char` -/

/-- Python whitespace test, as used by `str.strip`, `str.split()` and the
regex class `\s` (ASCII inputs; modeled by `Char.isWhitespace`). -/
def pySpace (c : Char) : Bool := c.isWhitespace

/-- Regex word-character class `\w` (ASCII `[a-zA-Z0-9_]`). -/
def isWordChar (c : Char) : Bool :=
  (('a' ≤ c && c ≤ 'z') || ('A' ≤ c && c ≤ 'Z') || ('0' ≤ c && c ≤ '9') || c == '_')

/-- Python `str.lower()` (ASCII). -/
def lowerChars (l : List Char) : List Char := l.map Char.toLower

/-- Python `str.strip()`: drop leading and trailing whitespace. -/
def stripChars (l : List Char) : List Char :=
  ((l.dropWhile pySpace).reverse.dropWhile pySpace).reverse

/-- Python `str.split(sep)` for a one-character separator: always returns at
least one (possibly empty) piece; `"".split(c) = [""]`. -/
def splitChar (sep : Char) : List Char → List (List Char)
  | [] => [[]]
  | c :: rest =>
    match splitChar sep rest with
    | [] => [[c]]
    | h :: t => if c == sep then [] :: h :: t else (c :: h) :: t

/-- Python `content.split('\n')`. -/
def splitNlChars (l : List Char) : List (List Char) := splitChar '\n' l

/-- Python `sep.join(pieces)` for a general separator. -/
def joinWithChars (sep : List Char) : List (List Char) → List Char
  | [] => []
  | [x] => x
  | x :: y :: t => x ++ sep ++ joinWithChars sep (y :: t)

/-- Python `'\n'.join(pieces)`. -/
def joinNlChars : List (List Char) → List Char := joinWithChars ['\n']

/-- Helper for `pyWordCount`: count maximal non-whitespace runs; the flag
records whether the previous character belonged to a run. -/
def wordCountAux : Bool → List Char → Nat
  | _, [] => 0
  | inWord, c :: rest =>
    if pySpace c then wordCountAux false rest
    else (if inWord then 0 else 1) + wordCountAux true rest

/-- Python `len(s.split())`: number of whitespace-separated words. -/
def pyWordCount (l : List Char) : Nat := wordCountAux false l

/-- Does `pat` occur at the start of `s`?  (Model of regex literal matching
at the current position.) -/
def leadsWith : List Char → List Char → Bool
  | [], _ => true
  | _ :: _, [] => false
  | p :: ps, c :: cs => p == c && leadsWith ps cs

/-- Python substring test `pat in s`. -/
def containsSub (pat : List Char) : List Char → Bool
  | [] => leadsWith pat []
  | c :: cs => leadsWith pat (c :: cs) || containsSub pat cs

/-! ## Data model: metadata and chunks -/

/-- The metadata keys of the ingested document that the embedded code
reads (`metadata.get(...)` in the Python source).  A `none` field models a
key absent from the dictionary. -/
structure Metadata where
  file_type : Option String
  filename : Option String
  file_name : Option String
  file_size : Option Nat
deriving DecidableEq, Repr

/-- One produced chunk.  `content` and `chunk_type` are written by every
strategy; every other field models a key that `metadata.update({...})`
writes only in some strategies (`none` = key not written).  `base` carries
the inherited copy of the document metadata (`metadata.copy()`). -/
structure Chunk where
  content : String
  chunk_type : String
  base : Metadata
  start_line : Option Nat := none
  end_line : Option Nat := none
  line_count : Option Nat := none
  function_name : Option String := none
  node_type : Option String := none
  section_title : Option String := none
  paragraph_count : Option Nat := none
  statement_type : Option String := none
  statement_index : Option Nat := none
  row_count : Option Nat := none
  columns_str : Option String := none
  column_count : Option Nat := none
  sample_size : Option Nat := none
  is_large_dataset : Option Bool := none
  estimated_rows : Option Nat := none
  file_size_bytes : Option Nat := none
  processing_error : Option String := none
deriving DecidableEq, Repr

/-- `ChunkingService.max_chunk_size` (approximate token budget). -/
def max_chunk_size : Nat := 1000

/-- `ChunkingService.overlap_size`. -/
def overlap_size : Nat := 100

/-! ## `_chunk_by_lines` — the terminal line-based fallback -/

/-- Loop body of `_chunk_by_lines`: iterate over the numbered lines
carrying `current_chunk` (`cur`) and `current_size` (`sz`); on overflow cut
a chunk recording 1-based `start_line`/`end_line`; after the loop flush the
final chunk using the total line count `n`. -/
def chunk_by_lines_aux (md : Metadata) (chunkSize : Nat) (n : Nat) :
    List (List Char) → Nat → List (List Char) → Nat → List Chunk
  | [], _i, cur, _sz =>
    if cur = [] then []
    else
      [{ content := ⟨joinNlChars cur⟩, chunk_type := "line_based", base := md,
         start_line := some (n - cur.length + 1), end_line := some n,
         line_count := some cur.length }]
  | line :: rest, i, cur, sz =>
    let ls := pyWordCount line
    if chunkSize < sz + ls ∧ cur ≠ [] then
      { content := ⟨joinNlChars cur⟩, chunk_type := "line_based", base := md,
        start_line := some (i - cur.length + 1), end_line := some i,
        line_count := some cur.length } ::
        chunk_by_lines_aux md chunkSize n rest (i + 1) [line] ls
    else
      chunk_by_lines_aux md chunkSize n rest (i + 1) (cur ++ [line]) (sz + ls)

/-- `ChunkingService._chunk_by_lines(content, metadata, chunk_size)`.
The source's unused `preserve_structure` parameter is dropped; a `None`
`chunk_size` argument at a call site is translated to `max_chunk_size`. -/
def chunk_by_lines (content : String) (md : Metadata) (chunkSize : Nat) : List Chunk :=
  let lines := splitNlChars content.data
  chunk_by_lines_aux md chunkSize lines.length lines 0 [] 0

/-- `ChunkingService.chunk_generic(content, metadata)`. -/
def chunk_generic (content : String) (md : Metadata) : List Chunk :=
  chunk_by_lines content md max_chunk_size

/-! ## Partition property of the line ranges -/

/-- `covers rs a b`: the ranges `rs` are exactly the 1-based intervals
tiling `a+1 .. b`: consecutive, nonempty, the first starting at `a + 1`
and the last ending at `b` (`covers rs 0 n` = the ranges partition
`1 .. n`). -/
def covers : List (Nat × Nat) → Nat → Nat → Bool
  | [], a, b => a == b
  | (s, e) :: rest, a, b => s == a + 1 && decide (a < e) && covers rest e b

/-- The `(start_line, end_line)` ranges of a chunk list (`0` standing in
for an absent field; the chunkers proved about always set both). -/
def rangesOf (cs : List Chunk) : List (Nat × Nat) :=
  cs.map fun c => (c.start_line.getD 0, c.end_line.getD 0)

theorem chunk_by_lines_aux_covers (md : Metadata) (chunkSize n : Nat) :
    ∀ (rest : List (List Char)) (i : Nat) (cur : List (List Char)) (sz : Nat),
      cur.length ≤ i → i + rest.length = n →
      covers (rangesOf (chunk_by_lines_aux md chunkSize n rest i cur sz))
        (i - cur.length) n = true := by
  intro rest
  induction rest with
  | nil =>
    intro i cur sz hle hn
    simp only [List.length_nil, Nat.add_zero] at hn
    subst hn
    by_cases hcur : cur = []
    · subst hcur
      simp [chunk_by_lines_aux, rangesOf, covers]
    · have hlen : 1 ≤ cur.length := by
        cases cur with
        | nil => exact absurd rfl hcur
        | cons a l => simp
      simp only [chunk_by_lines_aux, if_neg hcur]
      simp only [rangesOf, List.map_cons, List.map_nil, covers, Bool.and_eq_true,
        beq_iff_eq, decide_eq_true_eq, Option.getD_some]
      refine ⟨⟨trivial, by omega⟩, by simp [covers]⟩
  | cons line rest ih =>
    intro i cur sz hle hn
    simp only [chunk_by_lines_aux]
    by_cases hc : chunkSize < sz + pyWordCount line ∧ cur ≠ []
    · rw [if_pos hc]
      have hlen : 1 ≤ cur.length := by
        rcases hc with ⟨-, hcur⟩
        cases cur with
        | nil => exact absurd rfl hcur
        | cons a l => simp
      simp only [rangesOf, List.map_cons, covers, Bool.and_eq_true, beq_iff_eq,
        decide_eq_true_eq, Option.getD_some]
      refine ⟨⟨trivial, by omega⟩, ?_⟩
      have := ih (i + 1) [line] (pyWordCount line) (by simp)
        (by simp only [List.length_cons] at hn ⊢; omega)
      simpa [rangesOf] using this
    · rw [if_neg hc]
      have := ih (i + 1) (cur ++ [line]) (sz + pyWordCount line)
        (by simp; omega) (by simp only [List.length_cons] at hn ⊢; omega)
      have harith : i + 1 - (cur ++ [line]).length = i - cur.length := by
        simp
      rwa [harith] at this

theorem chunk_by_lines_aux_ne_nil (md : Metadata) (chunkSize n : Nat) :
    ∀ (rest : List (List Char)) (i : Nat) (cur : List (List Char)) (sz : Nat),
      cur ≠ [] ∨ rest ≠ [] →
      chunk_by_lines_aux md chunkSize n rest i cur sz ≠ [] := by
  intro rest
  induction rest with
  | nil =>
    intro i cur sz h
    rcases h with h | h
    · simp [chunk_by_lines_aux, if_neg h]
    · exact absurd rfl h
  | cons line rest ih =>
    intro i cur sz _
    simp only [chunk_by_lines_aux]
    by_cases hc : chunkSize < sz + pyWordCount line ∧ cur ≠ []
    · rw [if_pos hc]; simp
    · rw [if_neg hc]
      exact ih (i + 1) (cur ++ [line]) (sz + pyWordCount line) (Or.inl (by simp))

theorem chunk_by_lines_aux_some_lines (md : Metadata) (chunkSize n : Nat) :
    ∀ (rest : List (List Char)) (i : Nat) (cur : List (List Char)) (sz : Nat),
      ∀ c ∈ chunk_by_lines_aux md chunkSize n rest i cur sz,
        c.start_line.isSome ∧ c.end_line.isSome ∧ c.chunk_type = "line_based" := by
  intro rest
  induction rest with
  | nil =>
    intro i cur sz c hc
    by_cases hcur : cur = []
    · simp [chunk_by_lines_aux, hcur] at hc
    · simp only [chunk_by_lines_aux, if_neg hcur, List.mem_singleton] at hc
      subst hc
      exact ⟨rfl, rfl, rfl⟩
  | cons line rest ih =>
    intro i cur sz c hc
    simp only [chunk_by_lines_aux] at hc
    by_cases hcond : chunkSize < sz + pyWordCount line ∧ cur ≠ []
    · rw [if_pos hcond] at hc
      rcases List.mem_cons.1 hc with h | h
      · subst h; exact ⟨rfl, rfl, rfl⟩
      · exact ih (i + 1) [line] (pyWordCount line) c h
    · rw [if_neg hcond] at hc
      exact ih (i + 1) (cur ++ [line]) (sz + pyWordCount line) c hc

/-- `content.split('\n')` always yields at least one line. -/
theorem splitChar_ne_nil (sep : Char) : ∀ l : List Char, splitChar sep l ≠ [] := by
  intro l
  cases l with
  | nil => simp [splitChar]
  | cons c rest =>
    simp only [splitChar]
    rcases h : splitChar sep rest with - | ⟨piece, t⟩
    · simp
    · by_cases hc : c == sep <;> simp [hc]

/-- A metadata dictionary carrying none of the keys the code reads. -/
def emptyMetadata : Metadata :=
  { file_type := none, filename := none, file_name := none, file_size := none }

/-- C2: for every non-empty input, `_chunk_by_lines` returns at least one
chunk, every chunk carries `start_line` and `end_line`, and the emitted
`(start_line, end_line)` ranges tile the 1-based line numbers
`1 .. number-of-lines` exactly: consecutive, no gaps, no overlaps, first
chunk starting at line 1 and last chunk ending at the last line. -/
theorem chunk_by_lines_partitions_lines (content : String) (md : Metadata)
    (chunkSize : Nat) (h : content ≠ "") :
    chunk_by_lines content md chunkSize ≠ [] ∧
    (∀ c ∈ chunk_by_lines content md chunkSize,
        c.start_line.isSome ∧ c.end_line.isSome) ∧
    covers (rangesOf (chunk_by_lines content md chunkSize)) 0
      (splitNlChars content.data).length = true := by
  refine ⟨?_, ?_, ?_⟩
  · exact chunk_by_lines_aux_ne_nil md chunkSize _ _ 0 [] 0
      (Or.inr (splitChar_ne_nil '\n' content.data))
  · intro c hc
    exact ⟨(chunk_by_lines_aux_some_lines md chunkSize _ _ 0 [] 0 c hc).1,
      (chunk_by_lines_aux_some_lines md chunkSize _ _ 0 [] 0 c hc).2.1⟩
  · have := chunk_by_lines_aux_covers md chunkSize (splitNlChars content.data).length
      (splitNlChars content.data) 0 [] 0 (by simp) (by simp)
    simpa using this

/-- Witness for C2 at the concrete two-line input `"a\nb"`. -/
theorem chunk_by_lines_partitions_lines_witness :
    chunk_by_lines "a\nb" emptyMetadata 1000 ≠ [] ∧
    (∀ c ∈ chunk_by_lines "a\nb" emptyMetadata 1000,
        c.start_line.isSome ∧ c.end_line.isSome) ∧
    covers (rangesOf (chunk_by_lines "a\nb" emptyMetadata 1000)) 0
      (splitNlChars ("a\nb" : String).data).length = true :=
  chunk_by_lines_partitions_lines "a\nb" emptyMetadata 1000 (by decide)

/-! ## Regex splitting: `re.split(r';\s*\n', ...)` and `re.split(r'\n\s*\n', ...)`

Both patterns have the shape `c₀ \s* \n`.  A match at a given position
consumes `c₀` followed by the maximal whitespace run up to and including
its last newline (the greedy `\s*` backtracks until the next character is
`'\n'`); scanning is left to right and resumes after the consumed
separator, exactly as `re.split` does. -/

/-- Try to match `\s*\n` at the start of `rest` (greedy `\s*`, so the
match extends to the last `'\n'` of the leading whitespace run); return
the remainder after the match. -/
def sepConsume (rest : List Char) : Option (List Char) :=
  let run := rest.takeWhile pySpace
  let trailing := run.reverse.takeWhile (fun c => !(c == '\n'))
  if run.length = trailing.length then none
  else some (rest.drop (run.length - trailing.length))

/-- One left-to-right `re.split` scan for a pattern `c₀\s*\n`: `acc` is
the piece currently being built.  The `fuel` argument only makes the
recursion structural: every step strictly shrinks the scanned list
(`sepConsume` never lengthens it), so starting the scan with
`fuel = length of the input` never exhausts the fuel. -/
def regex_split_go (c0 : Char) : Nat → List Char → List Char → List (List Char)
  | _, acc, [] => [acc]
  | 0, acc, s => [acc ++ s]
  | fuel + 1, acc, c :: rest =>
    if c == c0 then
      match sepConsume rest with
      | some rest2 => acc :: regex_split_go c0 fuel [] rest2
      | none => regex_split_go c0 fuel (acc ++ [c]) rest
    else regex_split_go c0 fuel (acc ++ [c]) rest

/-- `re.split(pattern, s)` for the two patterns of the source,
`;\s*\n` (`chunk_sql`) and `\n\s*\n` (`_chunk_by_paragraphs`). -/
def pyRegexSplit (c0 : Char) (s : List Char) : List (List Char) :=
  regex_split_go c0 s.length [] s

/-! ## `_chunk_by_paragraphs` -/

/-- The chunk record built for one emitted paragraph group. -/
def paragraph_chunk (md : Metadata) (cur : List (List Char)) : Chunk :=
  { content := ⟨joinWithChars ['\n', '\n'] cur⟩, chunk_type := "paragraph_group",
    base := md, paragraph_count := some cur.length }

/-- Loop of `_chunk_by_paragraphs`: greedily accumulate paragraphs until
the token budget is exceeded; on an emit, keep the last paragraph as
overlap (`current_chunk[-1:]`, taken because `overlap_size > 0`) and
restart the size from its word count. -/
def chunk_by_paragraphs_aux (md : Metadata) (maxSize : Nat) :
    List (List Char) → List (List Char) → Nat → List Chunk
  | [], cur, _ => if cur = [] then [] else [paragraph_chunk md cur]
  | para :: rest, cur, size =>
    let ps := pyWordCount para
    if maxSize < size + ps ∧ cur ≠ [] then
      let cur2 := if 0 < overlap_size then cur.drop (cur.length - 1) else []
      let size2 := if 0 < overlap_size then pyWordCount (cur2.headD []) else 0
      paragraph_chunk md cur ::
        chunk_by_paragraphs_aux md maxSize rest (cur2 ++ [para]) (size2 + ps)
    else chunk_by_paragraphs_aux md maxSize rest (cur ++ [para]) (size + ps)

/-- `ChunkingService._chunk_by_paragraphs(content, metadata)`: split on
blank lines (`re.split(r'\n\s*\n', content)`), then group. -/
def chunk_by_paragraphs (content : String) (md : Metadata) : List Chunk :=
  chunk_by_paragraphs_aux md max_chunk_size (pyRegexSplit '\n' content.data) [] 0

/-! ## `_chunk_markdown` -/

/-- `re.match(r'^#{1,6}\s+', line)`: 1–6 leading `'#'` characters followed
by a whitespace character (with more than 6 leading `'#'`s the regex
cannot match, since backtracking only meets further `'#'`s). -/
def isHeaderLine (l : List Char) : Bool :=
  let r := (l.takeWhile (· == '#')).length
  decide (1 ≤ r) && decide (r ≤ 6) &&
    (match l.drop r with
     | c :: _ => pySpace c
     | [] => false)

/-- `for i, line in enumerate(lines): if <header regex>: record i`. -/
def header_indices_from : Nat → List (List Char) → List Nat
  | _, [] => []
  | i, l :: rest =>
    if isHeaderLine l then i :: header_indices_from (i + 1) rest
    else header_indices_from (i + 1) rest

/-- The 0-based indices of the markdown heading lines. -/
def header_indices (lines : List (List Char)) : List Nat :=
  header_indices_from 0 lines

/-- `re.sub(r'^#+\s*', '', header_line)`: drop the leading `'#'` run (if
any) and the whitespace run following it. -/
def stripHeaderMarks (l : List Char) : List Char :=
  let r := (l.takeWhile (· == '#')).length
  if r = 0 then l else (l.drop r).dropWhile pySpace

/-- Build one section chunk per heading index: a section runs from its
heading line to just before the next heading (or to EOF for the last). -/
def md_sections (lines : List (List Char)) (md : Metadata) : List Nat → List Chunk
  | [] => []
  | s :: rest =>
    let e := match rest with
      | [] => lines.length
      | s2 :: _ => s2
    let section_lines := (lines.drop s).take (e - s)
    { content := ⟨joinNlChars section_lines⟩, chunk_type := "markdown_section",
      base := md, start_line := some (s + 1), end_line := some e,
      section_title := some ⟨stripHeaderMarks (section_lines.headD [])⟩ } ::
      md_sections lines md rest

/-- `ChunkingService._chunk_markdown(content, metadata)`. -/
def chunk_markdown (content : String) (md : Metadata) : List Chunk :=
  let lines := splitNlChars content.data
  let his := header_indices lines
  if his = [] then chunk_by_paragraphs content md
  else md_sections lines md his

/-- `ChunkingService.chunk_document_text(content, metadata)`. -/
def chunk_document_text (content : String) (md : Metadata) : List Chunk :=
  if md.file_type.getD ".txt" = ".md" then chunk_markdown content md
  else chunk_by_paragraphs content md

/-! ## `chunk_sql` -/

/-- `re.match(r'^\s*KW', statement, re.IGNORECASE)` for a single keyword
(`kw` given lowercase). -/
def sql_kw1 (kw : List Char) (s : List Char) : Bool :=
  leadsWith kw (lowerChars (s.dropWhile pySpace))

/-- `re.match(r'^\s*KW1\s+KW2', statement, re.IGNORECASE)`. -/
def sql_kw2 (kw1 kw2 : List Char) (s : List Char) : Bool :=
  let r := s.dropWhile pySpace
  leadsWith kw1 (lowerChars r) &&
    (let r2 := r.drop kw1.length
     let n := (r2.takeWhile pySpace).length
     decide (1 ≤ n) && leadsWith kw2 (lowerChars (r2.drop n)))

/-- Statement-type detection of `chunk_sql`. -/
def sql_statement_type (s : List Char) : String :=
  if sql_kw2 "create".data "table".data s then "CREATE_TABLE"
  else if sql_kw2 "create".data "index".data s then "CREATE_INDEX"
  else if sql_kw1 "insert".data s then "INSERT"
  else if sql_kw1 "select".data s then "SELECT"
  else "UNKNOWN"

/-- `ChunkingService.chunk_sql(content, metadata)`: split on `;\s*\n`,
enumerate, strip each statement, drop empty ones, classify and tag with
`statement_index = i + 1` (`i` being the position in the enumeration of
the split result, before empty statements are dropped). -/
def chunk_sql (content : String) (md : Metadata) : List Chunk :=
  let statements := pyRegexSplit ';' content.data
  statements.enum.filterMap fun p =>
    let statement := stripChars p.2
    if statement = [] then none
    else
      some { content := ⟨statement⟩, chunk_type := "sql_statement", base := md,
             statement_type := some (sql_statement_type statement),
             statement_index := some (p.1 + 1) }

/-! ## Claims about the markdown strategy -/

/-- C5: on `"# A\ntext1\n## B\ntext2"`, `_chunk_markdown` emits exactly
two chunks, titled `"A"` and `"B"` (leading `#` markers and whitespace
stripped), spanning lines 1–2 and 3–4 respectively. -/
theorem chunk_markdown_two_sections (md : Metadata) :
    (chunk_markdown "# A\ntext1\n## B\ntext2" md).length = 2 ∧
    (chunk_markdown "# A\ntext1\n## B\ntext2" md).map
        (fun c => (c.section_title, c.start_line, c.end_line)) =
      [(some "A", some 1, some 2), (some "B", some 3, some 4)] :=
  ⟨rfl, rfl⟩

theorem header_indices_from_le :
    ∀ (lines : List (List Char)) (i x : Nat),
      x ∈ header_indices_from i lines → i ≤ x := by
  intro lines
  induction lines with
  | nil => intro i x hx; simp [header_indices_from] at hx
  | cons l rest ih =>
    intro i x hx
    simp only [header_indices_from] at hx
    by_cases hl : isHeaderLine l = true
    · rw [if_pos hl] at hx
      rcases List.mem_cons.1 hx with h | h
      · omega
      · have := ih (i + 1) x h; omega
    · rw [if_neg hl] at hx
      have := ih (i + 1) x hx; omega

theorem header_indices_from_head_min :
    ∀ (lines : List (List Char)) (i h : Nat) (t : List Nat),
      header_indices_from i lines = h :: t → i ≤ h ∧ ∀ x ∈ t, h ≤ x := by
  intro lines
  induction lines with
  | nil => intro i h t hx; simp [header_indices_from] at hx
  | cons l rest ih =>
    intro i h t hx
    simp only [header_indices_from] at hx
    by_cases hl : isHeaderLine l = true
    · rw [if_pos hl, List.cons.injEq] at hx
      obtain ⟨h1, h2⟩ := hx
      subst h2
      refine ⟨by omega, fun x hx => ?_⟩
      have := header_indices_from_le rest (i + 1) x hx
      omega
    · rw [if_neg hl] at hx
      have := ih (i + 1) h t hx
      exact ⟨by omega, this.2⟩

theorem md_sections_mem (lines : List (List Char)) (md : Metadata) :
    ∀ (idxs : List Nat) (m : Nat), (∀ x ∈ idxs, m ≤ x) →
      ∀ c ∈ md_sections lines md idxs, ∃ s e,
        c.start_line = some (s + 1) ∧ c.end_line = some e ∧ m ≤ s ∧
        c.content = ⟨joinNlChars ((lines.drop s).take (e - s))⟩ := by
  intro idxs
  induction idxs with
  | nil => intro m _ c hc; simp [md_sections] at hc
  | cons s rest ih =>
    intro m hm c hc
    simp only [md_sections] at hc
    rcases List.mem_cons.1 hc with h | h
    · subst h
      exact ⟨s, _, rfl, rfl, hm s (List.mem_cons_self s rest), rfl⟩
    · exact ih m (fun x hx => hm x (List.mem_cons_of_mem s hx)) c h

/-- C10: if the markdown input has at least one heading line (first one at
0-based index `h`), every emitted chunk covers only lines from index `h`
onward — its `start_line` is `s + 1` with `h ≤ s` and its content is
exactly the join of lines `s .. e-1` — so a non-empty preamble before the
first heading appears in no chunk. -/
theorem chunk_markdown_drops_preamble (content : String) (md : Metadata)
    (h : Nat) (t : List Nat)
    (hh : header_indices (splitNlChars content.data) = h :: t) :
    ∀ c ∈ chunk_markdown content md, ∃ s e,
      c.start_line = some (s + 1) ∧ c.end_line = some e ∧ h ≤ s ∧
      c.content = ⟨joinNlChars (((splitNlChars content.data).drop s).take (e - s))⟩ := by
  intro c hc
  simp only [chunk_markdown, hh] at hc
  rw [if_neg (by simp)] at hc
  have hmin := header_indices_from_head_min (splitNlChars content.data) 0 h t hh
  refine md_sections_mem (splitNlChars content.data) md (h :: t) h ?_ c hc
  intro x hx
  rcases List.mem_cons.1 hx with rfl | hx
  · exact le_refl _
  · exact hmin.2 x hx

/-- Witness for C10 on `"pre\npost\n# T\nbody"`: the preamble occupies
lines 1–2 (indices 0–1), the single emitted chunk starts at line 3. -/
theorem chunk_markdown_drops_preamble_witness :
    ∃ s e,
      ({ content := "# T\nbody", chunk_type := "markdown_section",
         base := emptyMetadata, start_line := some 3, end_line := some 4,
         section_title := some "T" } : Chunk).start_line = some (s + 1) ∧
      ({ content := "# T\nbody", chunk_type := "markdown_section",
         base := emptyMetadata, start_line := some 3, end_line := some 4,
         section_title := some "T" } : Chunk).end_line = some e ∧ 2 ≤ s ∧
      ({ content := "# T\nbody", chunk_type := "markdown_section",
         base := emptyMetadata, start_line := some 3, end_line := some 4,
         section_title := some "T" } : Chunk).content =
        ⟨joinNlChars (((splitNlChars ("pre\npost\n# T\nbody" : String).data).drop s).take (e - s))⟩ :=
  chunk_markdown_drops_preamble "pre\npost\n# T\nbody" emptyMetadata 2 [] (by decide)
    _ (by decide)

/-! ## Claims about the SQL strategy -/

theorem enumFrom_mem_of_get? {α : Type} :
    ∀ (l : List α) (n i : Nat) (x : α),
      l.get? i = some x → (n + i, x) ∈ l.enumFrom n := by
  intro l
  induction l with
  | nil => intro n i x hx; simp at hx
  | cons a rest ih =>
    intro n i x hx
    cases i with
    | zero =>
      simp only [List.get?] at hx
      rw [Option.some_inj] at hx
      subst hx
      simp [List.enumFrom]
    | succ j =>
      simp only [List.get?] at hx
      have := ih (n + 1) j x hx
      simp only [List.enumFrom, List.mem_cons]
      right
      have harith : n + 1 + j = n + (j + 1) := by omega
      rwa [harith] at this

/-- C4 (amended): `chunk_sql` splits on `;\s*\n`; every statement that is
non-empty after stripping yields a chunk whose content is the stripped
statement, whose `statement_type` is its leading-keyword classification,
and whose `statement_index` is `i + 1` where `i` is the statement's
position in the split sequence (empty statements are dropped but still
advance the ordinal).  The claim's example behaves as stated: the two-
statement input yields chunks tagged `CREATE_TABLE` / `SELECT` with
indices 1 and 2. -/
theorem chunk_sql_statements (content : String) (md : Metadata) :
    (∀ i st, (pyRegexSplit ';' content.data).get? i = some st →
      stripChars st ≠ [] →
      ({ content := ⟨stripChars st⟩, chunk_type := "sql_statement", base := md,
         statement_type := some (sql_statement_type (stripChars st)),
         statement_index := some (i + 1) } : Chunk) ∈ chunk_sql content md) ∧
    (chunk_sql "CREATE TABLE t (id INT);\nSELECT * FROM t;" md).map
        (fun c => (c.statement_type, c.statement_index)) =
      [(some "CREATE_TABLE", some 1), (some "SELECT", some 2)] := by
  constructor
  · intro i st hget hne
    have hmem : (i, st) ∈ (pyRegexSplit ';' content.data).enum := by
      have := enumFrom_mem_of_get? (pyRegexSplit ';' content.data) 0 i st hget
      simpa [List.enum] using this
    simp only [chunk_sql, List.mem_filterMap]
    exact ⟨(i, st), hmem, by simp [if_neg hne]⟩
  · rfl

/-- Witness for C4 (amended) at `"x;\n y"`: the second split piece
`" y"` strips to `"y"` and yields a chunk with `statement_index = 2`. -/
theorem chunk_sql_statements_witness :
    ({ content := "y", chunk_type := "sql_statement", base := emptyMetadata,
       statement_type := some "UNKNOWN",
       statement_index := some 2 } : Chunk) ∈ chunk_sql "x;\n y" emptyMetadata :=
  (chunk_sql_statements "x;\n y" emptyMetadata).1 1 " y".data (by decide) (by decide)

/-- Counterexample to C4 as stated: on `";\nSELECT 1"` the split yields
an empty first statement, which is dropped; the single emitted chunk (the
first one) carries `statement_index = 2`, not its emitted ordinal 1. -/
theorem chunk_sql_index_counterexample :
    (chunk_sql ";\nSELECT 1" emptyMetadata).map (fun c => c.statement_index) =
      [some 2] := by decide

/-! ## `should_use_rag` — the query router (`routers/chat.py`) -/

/-- The casual/greeting lexicon (`simple_patterns`); the eighth entry is
`what's up`, spelled out character by character to keep the source file
free of bare apostrophes. -/
def simple_patterns : List String :=
  ["hi", "hello", "hey", "good morning", "good afternoon", "good evening",
   "how are you", ⟨['w', 'h', 'a', 't', Char.ofNat 39, 's', ' ', 'u', 'p']⟩,
   "thanks", "thank you", "bye", "goodbye",
   "ok", "okay", "yes", "no", "sure", "great", "awesome", "cool"]

/-- The project/technical keyword list (`project_keywords`). -/
def project_keywords : List String :=
  ["project", "code", "api", "endpoint", "backend", "frontend", "docker",
   "fastapi", "streamlit", "chromadb", "groq", "rag", "database",
   "deployment", "container", "service", "function", "class", "method",
   "error", "bug", "fix", "implement", "create", "add", "modify", "update",
   "architecture", "structure", "design", "pattern", "configuration",
   "troubleshoot", "debug", "optimize", "performance"]

/-- The possessive/demonstrative phrases checked last. -/
def project_phrases : List String :=
  ["this project", "my project", "our project", "this code", "my code"]

/-- `should_use_rag(message)` from `routers/chat.py`: casual *and* short
(≤ 3 words) → no context; else any technical keyword → context; else any
project phrase → context; else no context.  Substring tests run on
`message.lower().strip()`, the word count on the raw message. -/
def should_use_rag (message : String) : Bool :=
  let message_lower := stripChars (lowerChars message.data)
  if (simple_patterns.any fun p => containsSub p.data message_lower) &&
      decide (pyWordCount message.data ≤ 3) then false
  else if project_keywords.any fun k => containsSub k.data message_lower then true
  else if project_phrases.any fun w => containsSub w.data message_lower then true
  else false

theorem should_use_rag_false_of_casual (m : String)
    (h1 : (simple_patterns.any fun p =>
      containsSub p.data (stripChars (lowerChars m.data))) = true)
    (h2 : pyWordCount m.data ≤ 3) : should_use_rag m = false := by
  have hc : ((simple_patterns.any fun p =>
      containsSub p.data (stripChars (lowerChars m.data))) &&
      decide (pyWordCount m.data ≤ 3)) = true := by
    rw [Bool.and_eq_true]
    exact ⟨h1, decide_eq_true h2⟩
  simp only [should_use_rag]
  rw [if_pos hc]

/-- C7: routing order — a short (≤ 3 words) casual message gets no
context; otherwise any technical keyword forces context; `"hi"` routes to
no-context and `"how do I fix this bug in my API"` to needs-context. -/
theorem should_use_rag_policy :
    (∀ m : String,
      (simple_patterns.any fun p =>
        containsSub p.data (stripChars (lowerChars m.data))) = true →
      pyWordCount m.data ≤ 3 → should_use_rag m = false) ∧
    (∀ m : String,
      ¬((simple_patterns.any fun p =>
          containsSub p.data (stripChars (lowerChars m.data))) = true ∧
        pyWordCount m.data ≤ 3) →
      (project_keywords.any fun k =>
        containsSub k.data (stripChars (lowerChars m.data))) = true →
      should_use_rag m = true) ∧
    should_use_rag "hi" = false ∧
    should_use_rag "how do I fix this bug in my API" = true := by
  refine ⟨should_use_rag_false_of_casual, ?_, by decide, by decide⟩
  intro m hneg hkw
  have hc : ((simple_patterns.any fun p =>
      containsSub p.data (stripChars (lowerChars m.data))) &&
      decide (pyWordCount m.data ≤ 3)) = false := by
    rw [Bool.and_eq_false_iff]
    by_cases ha : (simple_patterns.any fun p =>
        containsSub p.data (stripChars (lowerChars m.data))) = true
    · right
      by_cases hb : pyWordCount m.data ≤ 3
      · exact absurd ⟨ha, hb⟩ hneg
      · simpa using hb
    · left
      simpa using ha
  simp only [should_use_rag]
  rw [if_neg (by simp [hc]), if_pos hkw]

/-- Witness for C7: both general clauses applied at the claim's inputs. -/
theorem should_use_rag_policy_witness :
    should_use_rag "hi" = false ∧
    should_use_rag "how do I fix this bug in my API" = true :=
  ⟨should_use_rag_policy.1 "hi" (by decide) (by decide),
   (should_use_rag_policy.2.1 "how do I fix this bug in my API"
     (by decide) (by decide))⟩

/-- C9: the casual-substring test wins on any ≤ 3-word message whose
lowercased text contains a casual entry anywhere — including inside
another word — even when a technical keyword is present; in particular
`"fix this"` (where `"hi"` occurs inside `"this"`) gets no context
although `"fix"` is a technical keyword. -/
theorem should_use_rag_substring_override :
    (∀ m : String, pyWordCount m.data ≤ 3 →
      (∃ p ∈ simple_patterns,
        containsSub p.data (stripChars (lowerChars m.data)) = true) →
      should_use_rag m = false) ∧
    should_use_rag "fix this" = false ∧
    (project_keywords.any fun k =>
      containsSub k.data (stripChars (lowerChars ("fix this" : String).data))) = true := by
  refine ⟨?_, by decide, by decide⟩
  intro m hlen hex
  refine should_use_rag_false_of_casual m ?_ hlen
  rw [List.any_eq_true]
  exact hex

/-- Witness for C9 at `"fix this"`. -/
theorem should_use_rag_substring_override_witness :
    should_use_rag "fix this" = false :=
  should_use_rag_substring_override.1 "fix this" (by decide)
    ⟨"hi", by decide, by decide⟩

/-! ## `_simple_hash_embedding` (`embedding_service.py`)

The SHA-256 call is modeled by an arbitrary digest function
`String → List Nat` (a deterministic function of its input, as
`hashlib.sha256` is); Python floats are modeled as exact rationals —
the claims proved (determinism, output length) are independent of both
choices. -/

/-- `int.from_bytes(hash_bytes[j*4:(j+1)*4], 'big')`. -/
def byteVal (bytes : List Nat) (j : Nat) : Nat :=
  ((bytes.drop (j * 4)).take 4).foldl (fun a b => a * 256 + b) 0

/-- Inner loop of `_simple_hash_embedding`: one hash of `f"{text}_{i}"`
expanded into `min(32, dimension - i)` floats. -/
def hash_block (digest : String → List Nat) (text : String)
    (dimension i : Nat) : List Rat :=
  let hash_bytes := digest (text ++ "_" ++ toString i)
  (List.range (min 32 (dimension - i))).map fun j =>
    if j * 4 + 3 < hash_bytes.length then
      ((byteVal hash_bytes j : Rat) / (2 ^ 32 - 1)) * 2 - 1
    else 0

/-- Outer loop `for i in range(0, dimension, 32)`, appending each block. -/
def hash_embedding_loop (digest : String → List Nat) (text : String)
    (dimension : Nat) (i : Nat) : List Rat :=
  if i < dimension then
    hash_block digest text dimension i ++
      hash_embedding_loop digest text dimension (i + 32)
  else []
termination_by dimension - i
decreasing_by omega

/-- `EmbeddingService._simple_hash_embedding(text, dimension)`
(the trailing `embeddings[:dimension]`). -/
def simple_hash_embedding (digest : String → List Nat) (text : String)
    (dimension : Nat) : List Rat :=
  (hash_embedding_loop digest text dimension 0).take dimension

theorem hash_embedding_loop_length (digest : String → List Nat)
    (text : String) (dimension : Nat) :
    ∀ i, (hash_embedding_loop digest text dimension i).length = dimension - i := by
  have H : ∀ k i, dimension - i ≤ k →
      (hash_embedding_loop digest text dimension i).length = dimension - i := by
    intro k
    induction k with
    | zero =>
      intro i hk
      have hni : ¬ i < dimension := by omega
      rw [hash_embedding_loop, if_neg hni]
      simp
      omega
    | succ k ih =>
      intro i hk
      rw [hash_embedding_loop]
      by_cases hi : i < dimension
      · rw [if_pos hi]
        simp only [List.length_append, hash_block, List.length_map,
          List.length_range]
        rw [ih (i + 32) (by omega)]
        omega
      · rw [if_neg hi]
        simp
        omega
  exact fun i => H (dimension - i) i (le_refl _)

/-- C6: the hash-based fallback embedder is a deterministic function of
the text alone (two calls on equal texts return the same vector) and its
output has exactly the configured dimension (384 in the default call). -/
theorem simple_hash_embedding_deterministic (digest : String → List Nat)
    (t1 t2 : String) (dimension : Nat) (h : t1 = t2) :
    simple_hash_embedding digest t1 dimension =
      simple_hash_embedding digest t2 dimension ∧
    (simple_hash_embedding digest t1 dimension).length = dimension := by
  subst h
  refine ⟨rfl, ?_⟩
  simp [simple_hash_embedding, hash_embedding_loop_length]

/-- Witness for C6 with a concrete digest at the default dimension 384. -/
theorem simple_hash_embedding_deterministic_witness :
    simple_hash_embedding (fun _ => List.replicate 32 0) "a" 384 =
      simple_hash_embedding (fun _ => List.replicate 32 0) "a" 384 ∧
    (simple_hash_embedding (fun _ => List.replicate 32 0) "a" 384).length = 384 :=
  simple_hash_embedding_deterministic (fun _ => List.replicate 32 0) "a" "a" 384 rfl

/-! ## `_process_csv_content` (`rag_pipeline.py`) -/

/-- Digit grouping of Python's `f"{n:,}"` format: starting from the least
significant digit (the input is the reversed digit list), insert `','`
after every three digits. -/
def groupThrees : List Char → List Char
  | d1 :: d2 :: d3 :: d4 :: rest => d1 :: d2 :: d3 :: ',' :: groupThrees (d4 :: rest)
  | l => l

/-- Python `f"{n:,}"` for a natural number. -/
def pyCommaFmt (n : Nat) : List Char :=
  (groupThrees (toString n).data.reverse).reverse

/-- Body of `_process_csv_content` after `lines = content.strip().split('\n')`
(`lines` can never be `[]`, but the source's `if not lines` guard is kept).
In the source, `columns_str = header if header else ""` equals `header`
in both cases and is modeled as `header`; `lines[1:11] if len(lines) > 1
else []` equals `lines[1:11]` and is modeled as drop/take.  The
`try/except` is dropped: no operation in the body can raise, so the
`csv_fallback` branch is unreachable. -/
def process_csv_lines (lines : List (List Char)) (md : Metadata) : List Chunk :=
  if lines = [] then []
  else
    let filename := md.file_name.getD "unknown.csv"
    let header := lines.headD []
    let column_count := if header = [] then 0 else (splitChar ',' header).length
    if lines.length ≤ 1000 then
      let headerChunk : Chunk :=
        { content := ⟨"CSV File: ".data ++ filename.data ++ "\nColumns: ".data ++
            header ++ "\nTotal Rows: ".data ++ (toString (lines.length - 1)).data⟩,
          chunk_type := "csv_header", base := md,
          row_count := some (lines.length - 1), columns_str := some ⟨header⟩,
          column_count := some column_count }
      let sample_rows := (lines.drop 1).take 10
      if sample_rows = [] then [headerChunk]
      else
        [headerChunk,
         { content := ⟨"Sample data from ".data ++ filename.data ++ ":\n".data ++
             header ++ '\n' :: joinNlChars sample_rows⟩,
           chunk_type := "csv_sample", base := md,
           sample_size := some sample_rows.length }]
    else
      let headerChunk : Chunk :=
        { content := ⟨"Large CSV File: ".data ++ filename.data ++ "\nColumns: ".data ++
            header ++ "\nTotal Rows: ".data ++ (toString (lines.length - 1)).data⟩,
          chunk_type := "csv_header_large", base := md,
          row_count := some (lines.length - 1), columns_str := some ⟨header⟩,
          column_count := some column_count }
      let sample_rows := (lines.drop 1).take 20
      let sampleChunks :=
        if sample_rows = [] then []
        else
          [({ content := ⟨"Sample from ".data ++ filename.data ++ " (first 20 rows):\n".data ++
                header ++ '\n' :: joinNlChars sample_rows⟩,
              chunk_type := "csv_sample_large", base := md,
              sample_size := some sample_rows.length } : Chunk)]
      let statsChunk : Chunk :=
        { content := ⟨"Statistics for ".data ++ filename.data ++ ":\n".data ++
            "- Total records: ".data ++ pyCommaFmt (lines.length - 1) ++ "\n".data ++
            "- Columns: ".data ++ (toString column_count).data ++ "\n".data ++
            "- File size: ".data ++ pyCommaFmt (md.file_size.getD 0) ++ " bytes\n".data ++
            "- Data type: Large dataset suitable for analysis\n".data⟩,
          chunk_type := "csv_statistics", base := md, is_large_dataset := some true }
      headerChunk :: sampleChunks ++ [statsChunk]

/-- `RAGPipeline._process_large_csv_content` (the `> 10MB` path): only the
first 1000 characters are scanned. -/
def process_large_csv_content (content : String) (md : Metadata) : List Chunk :=
  let filename := md.file_name.getD "unknown.csv"
  let lines := splitNlChars (content.data.take 1000)
  if lines = [] then []
  else
    let header := lines.headD []
    let column_count := if header = [] then 0 else (splitChar ',' header).length
    let estimated_rows := content.data.length / 100
    let headerChunk : Chunk :=
      { content := ⟨"Very Large CSV File: ".data ++ filename.data ++
          "\nColumns: ".data ++ header ++ "\nEstimated Rows: ~".data ++
          pyCommaFmt estimated_rows ++ "\nFile Size: ".data ++
          pyCommaFmt content.data.length ++
          " bytes\nNote: This is a large dataset - only header and sample processed for performance.".data⟩,
        chunk_type := "csv_header_very_large", base := md,
        estimated_rows := some estimated_rows, columns_str := some ⟨header⟩,
        column_count := some column_count,
        file_size_bytes := some content.data.length, is_large_dataset := some true }
    let sample_lines := (lines.drop 1).take 5
    if sample_lines = [] then [headerChunk]
    else
      [headerChunk,
       { content := ⟨"Sample from large CSV ".data ++ filename.data ++ ":\n".data ++
           header ++ '\n' :: joinNlChars sample_lines ++
           "\n\n... (File contains ~".data ++ pyCommaFmt estimated_rows ++
           " total rows)".data⟩,
         chunk_type := "csv_sample_very_large", base := md,
         sample_size := some sample_lines.length, is_large_dataset := some true }]

/-- `lines = content.strip().split('\n')` of `_process_csv_content`. -/
def csvLines (content : String) : List (List Char) :=
  splitNlChars (stripChars content.data)

/-- `RAGPipeline._process_csv_content(content, metadata)`. -/
def process_csv_content (content : String) (md : Metadata) : List Chunk :=
  if 10000000 < content.data.length then process_large_csv_content content md
  else process_csv_lines (csvLines content) md

theorem process_csv_lines_small_eq (lines : List (List Char)) (md : Metadata)
    (h1 : 2 ≤ lines.length) (h2 : lines.length ≤ 1000) :
    process_csv_lines lines md =
      [{ content := ⟨"CSV File: ".data ++ (md.file_name.getD "unknown.csv").data ++
           "\nColumns: ".data ++ lines.headD [] ++ "\nTotal Rows: ".data ++
           (toString (lines.length - 1)).data⟩,
         chunk_type := "csv_header", base := md,
         row_count := some (lines.length - 1), columns_str := some ⟨lines.headD []⟩,
         column_count := some (if lines.headD [] = [] then 0
           else (splitChar ',' (lines.headD [])).length) },
       { content := ⟨"Sample data from ".data ++ (md.file_name.getD "unknown.csv").data ++
           ":\n".data ++ lines.headD [] ++ '\n' :: joinNlChars ((lines.drop 1).take 10)⟩,
         chunk_type := "csv_sample", base := md,
         sample_size := some ((lines.drop 1).take 10).length }] := by
  have hne : lines ≠ [] := by
    intro h
    rw [h] at h1
    simp at h1
  have hs : (lines.drop 1).take 10 ≠ [] := by
    have hlen : ((lines.drop 1).take 10).length = min 10 (lines.length - 1) := by
      simp
    intro hemp
    rw [hemp] at hlen
    simp at hlen
    omega
  simp only [process_csv_lines, if_neg hne, if_pos h2, if_neg hs]

theorem process_csv_lines_single_eq (lines : List (List Char)) (md : Metadata)
    (h1 : lines.length = 1) :
    process_csv_lines lines md =
      [{ content := ⟨"CSV File: ".data ++ (md.file_name.getD "unknown.csv").data ++
           "\nColumns: ".data ++ lines.headD [] ++ "\nTotal Rows: ".data ++
           (toString (lines.length - 1)).data⟩,
         chunk_type := "csv_header", base := md,
         row_count := some (lines.length - 1), columns_str := some ⟨lines.headD []⟩,
         column_count := some (if lines.headD [] = [] then 0
           else (splitChar ',' (lines.headD [])).length) }] := by
  have hne : lines ≠ [] := by
    intro h
    rw [h] at h1
    simp at h1
  have hs : (lines.drop 1).take 10 = [] := by
    have : lines.drop 1 = [] := by
      apply List.eq_nil_of_length_eq_zero
      simp [h1]
    rw [this]
    simp
  simp only [process_csv_lines, if_neg hne, if_pos (by omega : lines.length ≤ 1000),
    if_pos hs]

theorem process_csv_lines_large_map (lines : List (List Char)) (md : Metadata)
    (h1 : 1000 < lines.length) :
    (process_csv_lines lines md).map (fun c => (c.chunk_type, c.row_count, c.sample_size)) =
      [("csv_header_large", some (lines.length - 1), none),
       ("csv_sample_large", none, some 20),
       ("csv_statistics", none, none)] := by
  have hne : lines ≠ [] := by
    intro h
    rw [h] at h1
    simp at h1
  have hlen : ((lines.drop 1).take 20).length = 20 := by
    simp
    omega
  have hs : (lines.drop 1).take 20 ≠ [] := by
    intro hemp
    rw [hemp] at hlen
    simp at hlen
  simp only [process_csv_lines, if_neg hne, if_neg (by omega : ¬ lines.length ≤ 1000),
    if_neg hs, List.map_cons, List.map_append, List.map_nil, hlen]
  simp

/-! ### Round-trip lemmas: `strip` and `split('\n')` on newline-joined rows -/

theorem splitChar_of_not_mem (sep : Char) :
    ∀ l : List Char, sep ∉ l → splitChar sep l = [l] := by
  intro l
  induction l with
  | nil => intro _; rfl
  | cons c rest ih =>
    intro h
    have hcne : c ≠ sep := fun he => h (by simp [he])
    have hrest : sep ∉ rest := fun hm => h (List.mem_cons_of_mem _ hm)
    simp only [splitChar, ih hrest]
    rw [if_neg (by simp [hcne])]

theorem splitChar_append_sep (sep : Char) :
    ∀ (x r : List Char), sep ∉ x →
      splitChar sep (x ++ sep :: r) = x :: splitChar sep r := by
  intro x
  induction x with
  | nil =>
    intro r _
    simp only [List.nil_append, splitChar]
    rcases hs : splitChar sep r with - | ⟨p, t⟩
    · exact absurd hs (splitChar_ne_nil sep r)
    · simp
  | cons c cs ih =>
    intro r h
    have hcne : c ≠ sep := fun he => h (by simp [he])
    have hcs : sep ∉ cs := fun hm => h (List.mem_cons_of_mem _ hm)
    show (match splitChar sep (cs ++ sep :: r) with
          | [] => [[c]]
          | piece :: t => if c == sep then [] :: piece :: t else (c :: piece) :: t)
        = (c :: cs) :: splitChar sep r
    rw [ih r hcs]
    show (if c == sep then [] :: cs :: splitChar sep r
          else (c :: cs) :: splitChar sep r) = (c :: cs) :: splitChar sep r
    rw [if_neg (by simp [hcne])]

theorem splitChar_joinWith (sep : Char) :
    ∀ xss : List (List Char), (∀ xs ∈ xss, sep ∉ xs) → xss ≠ [] →
      splitChar sep (joinWithChars [sep] xss) = xss := by
  intro xss
  induction xss with
  | nil => intro _ h; exact absurd rfl h
  | cons x rest ih =>
    intro hmem _
    cases rest with
    | nil =>
      simp only [joinWithChars]
      exact splitChar_of_not_mem sep x (hmem x (by simp))
    | cons y t =>
      simp only [joinWithChars]
      rw [List.append_assoc, List.singleton_append,
        splitChar_append_sep sep x _ (hmem x (by simp)),
        ih (fun xs hxs => hmem xs (List.mem_cons_of_mem _ hxs)) (by simp)]

theorem stripChars_eq_self (l : List Char) (c1 c2 : Char) (t1 t2 : List Char)
    (h1 : l = c1 :: t1) (h2 : l.reverse = c2 :: t2)
    (hc1 : pySpace c1 = false) (hc2 : pySpace c2 = false) :
    stripChars l = l := by
  unfold stripChars
  have hd : l.dropWhile pySpace = l := by
    rw [h1, List.dropWhile_cons, hc1]
    simp
  rw [hd, h2, List.dropWhile_cons, hc2]
  simp only [Bool.false_eq_true, if_false]
  rw [← h2, List.reverse_reverse]

theorem joinNl_snoc_replicate :
    ∀ (n : Nat) (a : List Char),
      joinNlChars (a :: List.replicate (n + 1) "x".data) =
        joinNlChars (a :: List.replicate n "x".data) ++ ['\n', 'x'] := by
  intro n
  induction n with
  | zero =>
    intro a
    simp [joinNlChars, joinWithChars]
  | succ k ih =>
    intro a
    have e : ∀ (b : List Char) (t : List (List Char)),
        joinNlChars (a :: b :: t) = a ++ ['\n'] ++ joinNlChars (b :: t) :=
      fun b t => rfl
    rw [List.replicate_succ, e, ih "x".data, List.replicate_succ, e]
    simp [List.append_assoc]

theorem joinNl_replicate_length (n : Nat) :
    (joinNlChars ("h".data :: List.replicate n "x".data)).length = 1 + 2 * n := by
  induction n with
  | zero => rfl
  | succ k ih =>
    rw [joinNl_snoc_replicate k "h".data]
    simp only [List.length_append, ih, List.length_cons, List.length_nil]
    omega

/-- A CSV with a header line and exactly 1000 one-character data rows:
data row count 1000, total size 2001 characters. -/
def bigCsvContent : String :=
  ⟨joinNlChars ("h".data :: List.replicate 1000 "x".data)⟩

theorem bigCsvContent_data :
    bigCsvContent.data = joinNlChars ("h".data :: List.replicate 1000 "x".data) :=
  rfl

theorem bigCsvContent_lines :
    csvLines bigCsvContent = "h".data :: List.replicate 1000 "x".data := by
  have hhead : ∃ t, bigCsvContent.data = 'h' :: t :=
    ⟨'\n' :: joinNlChars ("x".data :: List.replicate 999 "x".data), rfl⟩
  have hsnoc : bigCsvContent.data =
      joinNlChars ("h".data :: List.replicate 999 "x".data) ++ ['\n', 'x'] := by
    show joinNlChars ("h".data :: List.replicate 1000 "x".data) = _
    rw [(by norm_num : (1000 : Nat) = 999 + 1), joinNl_snoc_replicate]
  have hlast : ∃ t, bigCsvContent.data.reverse = 'x' :: t := by
    rw [hsnoc, List.reverse_append]
    exact ⟨_, rfl⟩
  obtain ⟨t1, ht1⟩ := hhead
  obtain ⟨t2, ht2⟩ := hlast
  have hstrip : stripChars bigCsvContent.data = bigCsvContent.data :=
    stripChars_eq_self _ 'h' 'x' t1 t2 ht1 ht2 (by decide) (by decide)
  show splitNlChars (stripChars bigCsvContent.data) = _
  rw [hstrip]
  refine splitChar_joinWith '\n' _ ?_ (List.cons_ne_nil _ _)
  intro xs hxs
  rcases List.mem_cons.1 hxs with rfl | hxs
  · decide
  · rw [List.eq_of_mem_replicate hxs]
    decide

/-- C3 (amended): for CSV content of at most 10 MB, with
`lines = content.strip().split('\n')`: if the total line count is at most
1000 (data row count ≤ 999) and there is at least one data row, exactly
two chunks are emitted — a header summary with
`row_count = lines.length - 1` and a sample holding the header plus the
first `min(10, data rows)` data rows; with no data row only the header
chunk is emitted; if the total line count exceeds 1000, exactly three
chunks are emitted (header summary, 20-row sample, statistics).  The
claim's examples hold: 500 data rows give `row_count = 500` with a 10-row
sample, 5000 data rows give 3 chunks. -/
theorem process_csv_content_branches (content : String) (md : Metadata)
    (hsize : content.data.length ≤ 10000000) :
    (2 ≤ (csvLines content).length ∧ (csvLines content).length ≤ 1000 →
      process_csv_content content md =
        [{ content := ⟨"CSV File: ".data ++ (md.file_name.getD "unknown.csv").data ++
             "\nColumns: ".data ++ (csvLines content).headD [] ++ "\nTotal Rows: ".data ++
             (toString ((csvLines content).length - 1)).data⟩,
           chunk_type := "csv_header", base := md,
           row_count := some ((csvLines content).length - 1),
           columns_str := some ⟨(csvLines content).headD []⟩,
           column_count := some (if (csvLines content).headD [] = [] then 0
             else (splitChar ',' ((csvLines content).headD [])).length) },
         { content := ⟨"Sample data from ".data ++ (md.file_name.getD "unknown.csv").data ++
             ":\n".data ++ (csvLines content).headD [] ++
             '\n' :: joinNlChars (((csvLines content).drop 1).take 10)⟩,
           chunk_type := "csv_sample", base := md,
           sample_size := some (((csvLines content).drop 1).take 10).length }]) ∧
    ((csvLines content).length = 1 →
      process_csv_content content md =
        [{ content := ⟨"CSV File: ".data ++ (md.file_name.getD "unknown.csv").data ++
             "\nColumns: ".data ++ (csvLines content).headD [] ++ "\nTotal Rows: ".data ++
             (toString ((csvLines content).length - 1)).data⟩,
           chunk_type := "csv_header", base := md,
           row_count := some ((csvLines content).length - 1),
           columns_str := some ⟨(csvLines content).headD []⟩,
           column_count := some (if (csvLines content).headD [] = [] then 0
             else (splitChar ',' ((csvLines content).headD [])).length) }]) ∧
    (1000 < (csvLines content).length →
      (process_csv_content content md).map
          (fun c => (c.chunk_type, c.row_count, c.sample_size)) =
        [("csv_header_large", some ((csvLines content).length - 1), none),
         ("csv_sample_large", none, some 20),
         ("csv_statistics", none, none)]) := by
  have hng : ¬ 10000000 < content.data.length := by omega
  simp only [process_csv_content, if_neg hng]
  refine ⟨fun h => ?_, fun h => ?_, fun h => ?_⟩
  · exact process_csv_lines_small_eq _ md h.1 h.2
  · exact process_csv_lines_single_eq _ md h
  · exact process_csv_lines_large_map _ md h

/-- Witness for C3 (amended) at a 3-line CSV (2 data rows). -/
theorem process_csv_content_branches_witness :
    process_csv_content "a,b\n1,2\n3,4" emptyMetadata =
      [{ content := "CSV File: unknown.csv\nColumns: a,b\nTotal Rows: 2",
         chunk_type := "csv_header", base := emptyMetadata,
         row_count := some 2, columns_str := some "a,b",
         column_count := some 2 },
       { content := "Sample data from unknown.csv:\na,b\n1,2\n3,4",
         chunk_type := "csv_sample", base := emptyMetadata,
         sample_size := some 2 }] :=
  (process_csv_content_branches "a,b\n1,2\n3,4" emptyMetadata (by decide)).1
    ⟨by decide, by decide⟩

/-- Counterexample to C3 as stated.  First input: `"a,b"` has 0 data rows
(≤ 1000), yet only one chunk is emitted — the claim's "exactly two chunks"
fails.  Second input: a CSV with exactly 1000 data rows (≤ 1000, size
2001 bytes ≤ 10 MB), for which the claim again demands two chunks, gets
three: the code's branch condition is `len(lines) <= 1000` — total line
count including the header, not data row count — so 1000 data rows fall
in the large branch. -/
theorem process_csv_content_counterexample :
    (process_csv_content "a,b" emptyMetadata).length = 1 ∧
    bigCsvContent.data.length ≤ 10000000 ∧
    (csvLines bigCsvContent).length - 1 = 1000 ∧
    (process_csv_content bigCsvContent emptyMetadata).length = 3 := by
  refine ⟨by decide, ?_, ?_, ?_⟩
  · rw [bigCsvContent_data, joinNl_replicate_length 1000]
    norm_num
  · rw [bigCsvContent_lines]
    simp only [List.length_cons, List.length_replicate]
  · have hng : ¬ 10000000 < bigCsvContent.data.length := by
      rw [bigCsvContent_data, joinNl_replicate_length 1000]
      norm_num
    have hL : 1000 < (csvLines bigCsvContent).length := by
      rw [bigCsvContent_lines]
      simp only [List.length_cons, List.length_replicate]
      norm_num
    have hmap := process_csv_lines_large_map (csvLines bigCsvContent) emptyMetadata hL
    have : (process_csv_content bigCsvContent emptyMetadata).map
        (fun c => (c.chunk_type, c.row_count, c.sample_size)) =
        [("csv_header_large", some ((csvLines bigCsvContent).length - 1), none),
         ("csv_sample_large", none, some 20),
         ("csv_statistics", none, none)] := by
      simp only [process_csv_content, if_neg hng]
      exact hmap
    have hlen := congrArg List.length this
    simpa using hlen

/-! ## The code strategy: regex tier (`_chunk_with_regex`) -/

/-- `LANGUAGE_MAPPING` from `core/constants.py` (used via
`LANGUAGE_MAPPING.get(file_type, 'text')`). -/
def LANGUAGE_MAPPING : String → Option String := fun ft =>
  if ft = ".py" then some "python"
  else if ft = ".js" then some "javascript"
  else if ft = ".ts" then some "typescript"
  else if ft = ".jsx" then some "javascript"
  else if ft = ".tsx" then some "typescript"
  else if ft = ".java" then some "java"
  else if ft = ".cpp" then some "cpp"
  else if ft = ".c" then some "c"
  else if ft = ".h" then some "c"
  else if ft = ".go" then some "go"
  else if ft = ".rs" then some "rust"
  else if ft = ".rb" then some "ruby"
  else if ft = ".php" then some "php"
  else if ft = ".swift" then some "swift"
  else if ft = ".kt" then some "kotlin"
  else if ft = ".scala" then some "scala"
  else if ft = ".html" then some "html"
  else if ft = ".css" then some "css"
  else if ft = ".scss" then some "scss"
  else if ft = ".sass" then some "sass"
  else if ft = ".sql" then some "sql"
  else if ft = ".json" then some "json"
  else if ft = ".yaml" then some "yaml"
  else if ft = ".yml" then some "yaml"
  else if ft = ".toml" then some "toml"
  else if ft = ".xml" then some "xml"
  else if ft = ".md" then some "markdown"
  else if ft = ".txt" then some "text"
  else if ft = ".sh" then some "bash"
  else if ft = ".bat" then some "batch"
  else if ft = ".ps1" then some "powershell"
  else none

/-- Regex shape `KW\s+\w.*?T` anchored at the start (python `def`/`class`,
javascript `function`/`class`, java `class` boundary patterns, with `T`
being `':'` or `'{'`): the keyword, at least one whitespace character, a
word character, and `T` somewhere after it. -/
def kwWordThen (kw : List Char) (target : Char) (s : List Char) : Bool :=
  leadsWith kw s &&
    (let r := s.drop kw.length
     let n := (r.takeWhile pySpace).length
     decide (1 ≤ n) &&
       (match r.drop n with
        | [] => false
        | c :: rest => isWordChar c && rest.contains target))

/-- `^(async\s+def\s+\w+.*?:)`. -/
def pyAsyncDef (s : List Char) : Bool :=
  leadsWith "async".data s &&
    (let r := s.drop 5
     let n := (r.takeWhile pySpace).length
     decide (1 ≤ n) && kwWordThen "def".data ':' (r.drop n))

/-- `^(const\s+\w+\s*=\s*.*?=>)`: after the literal `'='` the combination
`\s*.*?` matches any characters, so the pattern just needs `"=>"`
somewhere in the remainder. -/
def jsConstArrow (s : List Char) : Bool :=
  leadsWith "const".data s &&
    (let r := s.drop 5
     let n := (r.takeWhile pySpace).length
     decide (1 ≤ n) &&
       (let r2 := r.drop n
        let w := (r2.takeWhile isWordChar).length
        decide (1 ≤ w) &&
          (let r3 := r2.drop w
           let m := (r3.takeWhile pySpace).length
           match r3.drop m with
           | '=' :: rest => containsSub "=>".data rest
           | _ => false)))

/-- `^(\s*KW\s+.*?\{)` (java `public`/`private`/`protected` patterns):
optional leading whitespace, the keyword, one whitespace character, and a
`'{'` after it. -/
def javaModBrace (kw : List Char) (s : List Char) : Bool :=
  let m := (s.takeWhile pySpace).length
  let r := s.drop m
  leadsWith kw r &&
    (match r.drop kw.length with
     | c :: rest => pySpace c && rest.contains '{'
     | [] => false)

/-- `^(\s*class\s+\w+.*?\{)`. -/
def javaClassBrace (s : List Char) : Bool :=
  let m := (s.takeWhile pySpace).length
  kwWordThen "class".data '{' (s.drop m)

/-- Does any boundary pattern of `language` match the stripped line?
(`patterns` only defines python, javascript and java.) -/
def regex_line_matches (language : String) (lineStripped : List Char) : Bool :=
  if language = "python" then
    kwWordThen "def".data ':' lineStripped ||
      kwWordThen "class".data ':' lineStripped || pyAsyncDef lineStripped
  else if language = "javascript" then
    kwWordThen "function".data '{' lineStripped ||
      jsConstArrow lineStripped || kwWordThen "class".data '{' lineStripped
  else if language = "java" then
    javaModBrace "public".data lineStripped ||
      javaModBrace "private".data lineStripped ||
      javaModBrace "protected".data lineStripped || javaClassBrace lineStripped
  else false

/-- The 0-based indices of boundary lines (`re.match(pattern, line.strip())`). -/
def regex_boundaries (language : String) : Nat → List (List Char) → List Nat
  | _, [] => []
  | i, l :: rest =>
    if regex_line_matches language (stripChars l) then
      i :: regex_boundaries language (i + 1) rest
    else regex_boundaries language (i + 1) rest

/-- `re.search(KW + r'\s+(\w+)', line)`: scan left to right for the
keyword followed by whitespace and a word run; return the word run. -/
def re_search_kw_name (kw : List Char) : List Char → Option (List Char)
  | [] => none
  | c :: rest =>
    (if leadsWith kw (c :: rest) then
      (let r := (c :: rest).drop kw.length
       let n := (r.takeWhile pySpace).length
       let w := (r.drop n).takeWhile isWordChar
       if 1 ≤ n ∧ 1 ≤ w.length then some w else none)
     else none).orElse (fun _ => re_search_kw_name kw rest)

/-- `re.search(r'\w+\s+(\w+)\s*\(', line)` (java fallback name pattern). -/
def re_search_java_method : List Char → Option (List Char)
  | [] => none
  | c :: rest =>
    (if isWordChar c then
      (let w1 := ((c :: rest).takeWhile isWordChar).length
       let r := (c :: rest).drop w1
       let n := (r.takeWhile pySpace).length
       if 1 ≤ n then
         let w2 := (r.drop n).takeWhile isWordChar
         if 1 ≤ w2.length then
           let r2 := (r.drop n).drop w2.length
           let m := (r2.takeWhile pySpace).length
           (match r2.drop m with
            | '(' :: _ => some w2
            | _ => none)
         else none
       else none)
     else none).orElse (fun _ => re_search_java_method rest)

/-- `ChunkingService._extract_function_name(line, language)`. -/
def extract_function_name (line : List Char) (language : String) : String :=
  if language = "python" then
    match re_search_kw_name "def".data line with
    | some w => ⟨w⟩
    | none =>
      match re_search_kw_name "class".data line with
      | some w => ⟨w⟩
      | none => ""
  else if language = "javascript" then
    match re_search_kw_name "function".data line with
    | some w => ⟨w⟩
    | none =>
      match re_search_kw_name "const".data line with
      | some w => ⟨w⟩
      | none => ""
  else if language = "java" then
    match re_search_kw_name "class".data line with
    | some w => ⟨w⟩
    | none =>
      match re_search_java_method line with
      | some w => ⟨w⟩
      | none => ""
  else ""

/-- One chunk per boundary: from its line to just before the next
boundary (or EOF), named via `_extract_function_name` on the stripped
first line. -/
def regex_section_chunks (lines : List (List Char)) (md : Metadata)
    (language : String) : List Nat → List Chunk
  | [] => []
  | s :: rest =>
    let e := match rest with
      | [] => lines.length
      | s2 :: _ => s2
    let chunk_lines := (lines.drop s).take (e - s)
    let first_line := stripChars (chunk_lines.headD [])
    { content := ⟨joinNlChars chunk_lines⟩, chunk_type := "regex_function",
      base := md, start_line := some (s + 1), end_line := some e,
      function_name := some (extract_function_name first_line language) } ::
      regex_section_chunks lines md language rest

/-- `ChunkingService._chunk_with_regex(content, language, metadata)`
(an empty boundary list yields `[]`, as in the source). -/
def chunk_with_regex (content : String) (language : String) (md : Metadata) :
    List Chunk :=
  if language = "python" ∨ language = "javascript" ∨ language = "java" then
    let lines := splitNlChars content.data
    regex_section_chunks lines md language (regex_boundaries language 0 lines)
  else []

/-! ## The dispatch: `chunk_document` and the missing `chunk_csv` -/

/-- The type of the AST tier `_chunk_with_ast`: it depends on the external
`tree_sitter_languages` package, catches every exception internally
(including the `ImportError` when the package is absent) and returns `[]`
on any failure, so it is modeled as an arbitrary total function of
`(content, language, metadata)`. -/
def AstTier : Type := String → String → Metadata → List Chunk

/-- `ChunkingService.chunk_code(content, metadata)`: AST tier, then regex
tier, then the line-based fallback (with the default budget). -/
def chunk_code (ast : AstTier) (content : String) (md : Metadata) : List Chunk :=
  let language := (LANGUAGE_MAPPING (md.file_type.getD ".py")).getD "text"
  let ast_chunks := ast content language md
  if ast_chunks ≠ [] then ast_chunks
  else
    let regex_chunks := chunk_with_regex content language md
    if regex_chunks ≠ [] then regex_chunks
    else chunk_by_lines content md max_chunk_size

/-- `ChunkingService.chunk_config(content, metadata)`. -/
def chunk_config (content : String) (md : Metadata) : List Chunk :=
  if content.data.length < 2000 then
    [{ content := content, chunk_type := "config_complete", base := md,
       start_line := some 1,
       end_line := some (splitNlChars content.data).length }]
  else chunk_by_lines content md 800

/-- `ChunkingService.chunk_web(content, metadata)`. -/
def chunk_web (content : String) (md : Metadata) : List Chunk :=
  chunk_by_lines content md 800

/-- The Python exception escaping a strategy.  The only fallible
operation in the dispatch is the `.csv` branch's `self.chunk_csv(...)`:
`ChunkingService` defines no method of that name, so the attribute lookup
raises `AttributeError`. -/
inductive PyErr where
  | attributeError (name : String)
deriving DecidableEq, Repr

/-- The dispatch lists of `chunk_document`. -/
def code_extensions : List String :=
  [".py", ".js", ".ts", ".jsx", ".tsx", ".java", ".cpp", ".c", ".h",
   ".go", ".rs", ".rb", ".php", ".swift", ".kt", ".scala"]

def config_extensions : List String :=
  [".json", ".yaml", ".yml", ".toml", ".ini", ".xml", ".properties"]

def doc_extensions : List String := [".md", ".txt", ".rst"]

def web_extensions : List String := [".html", ".css", ".scss", ".sass"]

/-- The `try:` block of `ChunkingService.chunk_document`. -/
def chunk_document_body (ast : AstTier) (content : String) (md : Metadata) :
    Except PyErr (List Chunk) :=
  let file_type := md.file_type.getD ".txt"
  if file_type ∈ code_extensions then .ok (chunk_code ast content md)
  else if file_type ∈ config_extensions then .ok (chunk_config content md)
  else if file_type ∈ doc_extensions then .ok (chunk_document_text content md)
  else if file_type = ".sql" then .ok (chunk_sql content md)
  else if file_type ∈ web_extensions then .ok (chunk_web content md)
  else if file_type = ".csv" then .error (.attributeError "chunk_csv")
  else .ok (chunk_generic content md)

/-- `ChunkingService.chunk_document`: the `except` clause turns any error
from the body into `chunk_generic`. -/
def chunk_document (ast : AstTier) (content : String) (md : Metadata) :
    List Chunk :=
  match chunk_document_body ast content md with
  | .ok chunks => chunks
  | .error _ => chunk_generic content md

/-- The chunk-source selection of `RAGPipeline.add_document`: a `'.csv'`
`file_type` goes to `_process_csv_content`, everything else to
`ChunkingService.chunk_document`. -/
def add_document_chunks (ast : AstTier) (content : String) (md : Metadata) :
    List Chunk :=
  if md.file_type = some ".csv" then process_csv_content content md
  else chunk_document ast content md

/-- C1: `chunk_document` never propagates an exception — whatever the AST
tier does, an erroring body falls back to `chunk_generic`, a successful
body is returned as is, and the line-based generic fallback returns a
non-empty chunk list for non-empty input (it is a total Lean function:
it cannot throw). -/
theorem chunk_document_never_raises (ast : AstTier) (content : String)
    (md : Metadata) :
    (∀ e, chunk_document_body ast content md = Except.error e →
      chunk_document ast content md = chunk_generic content md) ∧
    (∀ cs, chunk_document_body ast content md = Except.ok cs →
      chunk_document ast content md = cs) ∧
    (content ≠ "" → chunk_generic content md ≠ []) := by
  refine ⟨?_, ?_, ?_⟩
  · intro e he
    simp [chunk_document, he]
  · intro cs hcs
    simp [chunk_document, hcs]
  · intro _
    exact chunk_by_lines_aux_ne_nil md max_chunk_size _ _ 0 [] 0
      (Or.inr (splitChar_ne_nil '\n' content.data))

/-- A `.csv` upload's metadata. -/
def csvMetadata : Metadata :=
  { file_type := some ".csv", filename := some "data.csv",
    file_name := some "data.csv", file_size := some 8 }

/-- Witness for C1: with a trivial AST tier and `.csv` metadata the body
errors and the fallback fires; the fallback output is non-empty. -/
theorem chunk_document_never_raises_witness :
    chunk_document (fun _ _ _ => []) "a,b\n1,2" csvMetadata =
      chunk_generic "a,b\n1,2" csvMetadata ∧
    chunk_generic "a,b\n1,2" csvMetadata ≠ [] :=
  ⟨(chunk_document_never_raises (fun _ _ _ => []) "a,b\n1,2" csvMetadata).1
      (PyErr.attributeError "chunk_csv") rfl,
   (chunk_document_never_raises (fun _ _ _ => []) "a,b\n1,2" csvMetadata).2.2
      (by decide)⟩

/-- C8: on a `'.csv'` `file_type`, `chunk_document` produces exactly the
generic line-based chunking of the input — the dispatch reaches the
`self.chunk_csv(...)` call, which raises `AttributeError` (no such method
exists), and the handler falls back to `chunk_generic`; the
row-summarizing CSV chunks come only from `add_document`'s separate
`_process_csv_content` path, which bypasses the chunking engine. -/
theorem chunk_document_csv_is_generic (ast : AstTier) (content : String)
    (md : Metadata) (h : md.file_type = some ".csv") :
    chunk_document ast content md = chunk_generic content md ∧
    chunk_document_body ast content md =
      Except.error (PyErr.attributeError "chunk_csv") ∧
    add_document_chunks ast content md = process_csv_content content md := by
  have hb : chunk_document_body ast content md =
      Except.error (PyErr.attributeError "chunk_csv") := by
    unfold chunk_document_body
    rw [h]
    rfl
  refine ⟨?_, hb, ?_⟩
  · simp [chunk_document, hb]
  · simp [add_document_chunks, h]

/-- Witness for C8 at concrete input. -/
theorem chunk_document_csv_is_generic_witness :
    chunk_document (fun _ _ _ => []) "a,b\n1,2" csvMetadata =
      chunk_generic "a,b\n1,2" csvMetadata ∧
    chunk_document_body (fun _ _ _ => []) "a,b\n1,2" csvMetadata =
      Except.error (PyErr.attributeError "chunk_csv") ∧
    add_document_chunks (fun _ _ _ => []) "a,b\n1,2" csvMetadata =
      process_csv_content "a,b\n1,2" csvMetadata :=
  chunk_document_csv_is_generic (fun _ _ _ => []) "a,b\n1,2" csvMetadata rfl

end RagChatbot
